import Mathlib

/-!
Verification development for `src/mp3_combiner.py`, an interactive terminal
tool that lists MP3 files in a directory, lets the user reorder them with a
raw-mode keyboard list editor, and concatenates the chosen order (with fixed
3000 ms silence gaps) into one output file.

The embedding below follows the source: pure helpers become Lean functions,
the interactive loop's mutable state becomes an `EditorState` value threaded
through `applyCommand`, the combine loop becomes an index-carrying recursion
producing the list of appended audio/silence segments, and the external pydub
collaborator is abstracted as `decode : String → Option Nat` (a successful
decode yields the segment's duration in milliseconds, matching pydub's
`len(audio)`; a `CouldntDecodeError`/`IOError`/`OSError` is `none`).
-/

/-- Lexicographic code-point comparison of character lists, the order Python
uses to compare strings in `sorted` (line 38). -/
def charListLe : List Char → List Char → Bool
  | [], _ => true
  | _ :: _, [] => false
  | a :: as, b :: bs =>
    if a.toNat < b.toNat then true
    else if b.toNat < a.toNat then false
    else charListLe as bs

/-- Python's `a <= b` on strings: lexicographic by code point. -/
def strLe (a b : String) : Bool :=
  charListLe a.data b.data

/-- Python's `file.lower().endswith(suff)` (line 35): lowercase every
character, then compare the trailing `suff.length` characters with `suff`. -/
def endsWithLower (file suff : String) : Bool :=
  let cs := file.data.map Char.toLower
  cs.drop (cs.length - suff.data.length) == suff.data

/-- Embeds `list_mp3_files` (src/mp3_combiner.py lines 21-40): from the
directory listing, keep entries whose lowercased name ends with ".mp3",
then sort ascending (Python `sorted` on strings is lexicographic by code
point; since that order is antisymmetric, any sorted permutation is the
`sorted` result, so an insertion sort by the same order embeds it). -/
def list_mp3_files (all_items : List String) : List String :=
  let mp3_files := all_items.filter (fun file => endsWithLower file ".mp3")
  List.insertionSort (fun a b => strLe a b = true) mp3_files

/-- The discrete commands decoded from raw key input by the interactive loop
(lines 153-216): up/down arrows, Enter (select/deselect), 'c' (combine),
'q' (quit); every other byte (or incomplete escape sequence) is ignored. -/
inductive Command
  | moveUp
  | moveDown
  | togglePick
  | combine
  | quit
  | ignore
deriving DecidableEq, Repr

/-- The interactive loop's mutable state (lines 138-140): the ordered file
list `mp3_files`, the cursor `focused_index`, and the optional
`selected_index` of a picked-up ("drag mode") item. -/
structure EditorState where
  sequence : List String
  focused_index : Nat
  selected_index : Option Nat
deriving DecidableEq, Repr

/-- Swap of the adjacent elements at positions `n` and `n+1`, the effect of
the Python parallel assignment `l[i], l[i-1] = l[i-1], l[i]` on adjacent
indices (lines 170-171 and 184-185); out-of-range positions leave the list
unchanged (the source guards keep indices in range on reachable states). -/
def swapAt : List String → Nat → List String
  | x :: y :: rest, 0 => y :: x :: rest
  | x :: rest, n + 1 => x :: swapAt rest n
  | l, _ => l

/-- One step of the interactive loop (lines 165-201): arrow keys move the
focus (browse mode, `selected_index = none`, with `max 0`/`min (len-1)`
clamping) or drag the selected item by an adjacent swap (drag mode, with
boundary guards `selected > 0` and `selected < len - 1`); Enter toggles the
selection; 'c', 'q' and unrecognized input leave the state unchanged (the
former two exit the loop). -/
def applyCommand (st : EditorState) : Command → EditorState
  | Command.moveUp =>
    match st.selected_index with
    | some s =>
      if s > 0 then
        { sequence := swapAt st.sequence (s - 1),
          focused_index := s - 1,
          selected_index := some (s - 1) }
      else st
    | none => { st with focused_index := st.focused_index - 1 }
  | Command.moveDown =>
    match st.selected_index with
    | some s =>
      if s < st.sequence.length - 1 then
        { sequence := swapAt st.sequence s,
          focused_index := s + 1,
          selected_index := some (s + 1) }
      else st
    | none =>
      { st with focused_index := min (st.sequence.length - 1) (st.focused_index + 1) }
  | Command.togglePick =>
    match st.selected_index with
    | none => { st with selected_index := some st.focused_index }
    | some _ => { st with selected_index := none }
  | Command.combine => st
  | Command.quit => st
  | Command.ignore => st

/-- Folding a whole command sequence through the loop body. -/
def applyCommands (st : EditorState) (cmds : List Command) : EditorState :=
  cmds.foldl applyCommand st

/-- The interactive loop until a terminal command (lines 153-219): each
decoded command mutates the state; `combine` breaks out and hands the current
`mp3_files` order to the combine pass (the `char == 'c'` branch), `quit`
breaks out without combining, and command exhaustion means no combine
happened. Returns the order handed to the Combiner, when any. -/
def runLoop : EditorState → List Command → Option (List String)
  | _, [] => none
  | st, c :: rest =>
    match c with
    | Command.combine => some st.sequence
    | Command.quit => none
    | _ => runLoop (applyCommand st c) rest

/-- One decode step of the key reader (lines 155-163 plus the dispatch at
165-213): read one byte; on ESC read a second byte, and only when that byte
is '[' read a third byte which selects the arrow command ('A' up, 'B' down,
anything else ignored). At end of stream Python's `read(1)` returns the
empty string, which matches no branch, so a truncated sequence degrades to
`ignore`. Returns the decoded command and the unread remainder of the
stream. -/
def readKey : List Char → Command × List Char
  | [] => (Command.ignore, [])
  | c :: rest =>
    if c = '\x1b' then
      match rest with
      | [] => (Command.ignore, [])
      | n :: rest2 =>
        if n = '[' then
          match rest2 with
          | [] => (Command.ignore, [])
          | a :: rest3 =>
            if a = 'A' then (Command.moveUp, rest3)
            else if a = 'B' then (Command.moveDown, rest3)
            else (Command.ignore, rest3)
        else (Command.ignore, rest2)
    else if c = '\r' ∨ c = '\n' then (Command.togglePick, rest)
    else if c = 'c' then (Command.combine, rest)
    else if c = 'q' then (Command.quit, rest)
    else (Command.ignore, rest)

/-- Number of raw bytes one `readKey` call consumes from the stream. -/
def bytesConsumed (stream : List Char) : Nat :=
  stream.length - (readKey stream).2.length

/-- A piece appended to `combined_audio` during the combine loop: either a
successfully decoded file's audio (line 240) or a generated silence gap
(lines 244-245). `durationMs` is pydub's `len` in milliseconds. -/
inductive Seg
  | audio (file : String) (durationMs : Nat)
  | silence (durationMs : Nat)
deriving DecidableEq, Repr

/-- Duration in milliseconds of a segment. -/
def Seg.dur : Seg → Nat
  | Seg.audio _ d => d
  | Seg.silence d => d

/-- Whether a segment is decoded file audio (as opposed to a silence gap). -/
def Seg.isAudio : Seg → Bool
  | Seg.audio _ _ => true
  | Seg.silence _ => false

/-- The combine loop body (lines 229-249), carrying the running index `i` of
`enumerate` and the total file count `n = len(mp3_files)`: for each file, a
successful decode appends its audio and, when `i < n - 1`, a 3000 ms silence
gap; a failed decode appends nothing (`continue` fires before the silence
append, so a skipped file contributes no audio and no gap of its own). -/
def combineFrom (decode : String → Option Nat) (n : Nat) : Nat → List String → List Seg
  | _, [] => []
  | i, f :: rest =>
    (match decode f with
     | some d =>
       Seg.audio f d :: (if i < n - 1 then [Seg.silence 3000] else [])
     | none => []) ++ combineFrom decode n (i + 1) rest

/-- The whole combine pass over the final ordered file list (lines 226-249),
starting from `AudioSegment.empty()`. -/
def combineAll (decode : String → Option Nat) (files : List String) : List Seg :=
  combineFrom decode files.length 0 files

/-- Number of decoded-audio segments in the combined output. -/
def audioCount (segs : List Seg) : Nat :=
  segs.countP (fun s => s.isAudio)

/-- Number of silence gaps in the combined output. -/
def silenceCount (segs : List Seg) : Nat :=
  segs.countP (fun s => !s.isAudio)

/-- Total length of the combined audio in milliseconds — Python's
`len(combined_audio)` (line 252), since pydub concatenation adds durations. -/
def totalLength (segs : List Seg) : Nat :=
  (segs.map Seg.dur).sum

/-- Outcome of the export guard (lines 252-264): `exported` is the
`combined_audio.export(...)` call; `noValidInput` is the branch printing
"Error: No valid MP3 files could be processed." to stderr followed by
`sys.exit(1)`. -/
inductive ExportResult
  | exported (totalMs : Nat)
  | noValidInput
deriving DecidableEq, Repr

/-- The export guard applied to the combine pass: export only if the
combined audio has positive length (line 252), else the fatal
no-valid-input branch. -/
def runCombine (decode : String → Option Nat) (files : List String) : ExportResult :=
  let combined := combineAll decode files
  if totalLength combined > 0 then ExportResult.exported (totalLength combined)
  else ExportResult.noValidInput

/-- The three ways control leaves the interactive `try` block (lines
145-268): the 'q' branch `break` (line 213), the 'c' branch `break` (lines
204-209), or an uncaught exception / keyboard interrupt propagating out of
the loop. -/
inductive ExitPath
  | quitKey
  | combineKey
  | failure
deriving DecidableEq, Repr

/-- Trace of `termios.tcsetattr(..., original_settings)` restore calls on a
given exit path: the 'c' branch performs a restore before breaking (line
206), and the `finally` block performs a restore unconditionally on every
path (line 268). Each `()` is one restore call, in program order. -/
def restoreEvents : ExitPath → List Unit
  | ExitPath.combineKey => [()] ++ [()]
  | ExitPath.quitKey => [()]
  | ExitPath.failure => [()]

/-- Number of terminal-restore calls performed on a given exit path. -/
def restoreCount (p : ExitPath) : Nat :=
  (restoreEvents p).length

/-- A sample collaborator behavior: every file decodes to 1000 ms of audio
except "b.mp3", which raises a decode error. -/
def decodeSample : String → Option Nat :=
  fun f => if f = "b.mp3" then none else some 1000

/-! Helper lemmas about the embedded operations. -/

theorem swapAt_succ_cons (x : String) (rest : List String) (m : Nat) :
    swapAt (x :: rest) (m + 1) = x :: swapAt rest m := by
  cases rest <;> rfl

theorem swapAt_perm (l : List String) (n : Nat) : (swapAt l n).Perm l := by
  induction l generalizing n with
  | nil => cases n <;> exact List.Perm.refl _
  | cons x rest ih =>
    cases n with
    | zero =>
      cases rest with
      | nil => exact List.Perm.refl _
      | cons y r => exact List.Perm.swap x y r
    | succ m =>
      rw [swapAt_succ_cons]
      exact List.Perm.cons x (ih m)

theorem applyCommand_sequence_perm (st : EditorState) (c : Command) :
    ((applyCommand st c).sequence).Perm st.sequence := by
  obtain ⟨seq, f, sel⟩ := st
  cases c with
  | moveUp =>
    cases sel with
    | none => exact List.Perm.refl _
    | some s =>
      by_cases hs : s > 0
      · simpa [applyCommand, hs] using swapAt_perm seq (s - 1)
      · simp [applyCommand, hs]
  | moveDown =>
    cases sel with
    | none => exact List.Perm.refl _
    | some s =>
      by_cases hs : s < seq.length - 1
      · simpa [applyCommand, hs] using swapAt_perm seq s
      · simp [applyCommand, hs]
  | togglePick => cases sel <;> exact List.Perm.refl _
  | combine => exact List.Perm.refl _
  | quit => exact List.Perm.refl _
  | ignore => exact List.Perm.refl _

theorem applyCommands_sequence_perm (st : EditorState) (cmds : List Command) :
    ((applyCommands st cmds).sequence).Perm st.sequence := by
  induction cmds generalizing st with
  | nil => exact List.Perm.refl _
  | cons c rest ih =>
    exact (ih (applyCommand st c)).trans (applyCommand_sequence_perm st c)

theorem charListLe_total (as bs : List Char) :
    charListLe as bs = true ∨ charListLe bs as = true := by
  induction as generalizing bs with
  | nil => left; rfl
  | cons a as ih =>
    cases bs with
    | nil => right; rfl
    | cons b bs =>
      rcases Nat.lt_trichotomy a.toNat b.toNat with h | h | h
      · left; simp [charListLe, h]
      · rcases ih bs with h2 | h2
        · left; simp [charListLe, h, h2]
        · right; simp [charListLe, h, h2]
      · right; simp [charListLe, h]

theorem charListLe_trans (as bs cs : List Char)
    (h1 : charListLe as bs = true) (h2 : charListLe bs cs = true) :
    charListLe as cs = true := by
  induction as generalizing bs cs with
  | nil => rfl
  | cons a as ih =>
    cases bs with
    | nil => simp [charListLe] at h1
    | cons b bs =>
      cases cs with
      | nil => simp [charListLe] at h2
      | cons c cs =>
        simp only [charListLe] at h1 h2 ⊢
        by_cases hab : a.toNat < b.toNat
        · by_cases hbc : b.toNat < c.toNat
          · simp [show a.toNat < c.toNat by omega]
          · by_cases hcb : c.toNat < b.toNat
            · simp [hbc, hcb] at h2
            · simp [show a.toNat < c.toNat by omega]
        · by_cases hba : b.toNat < a.toNat
          · simp [hab, hba] at h1
          · simp [hab, hba] at h1
            by_cases hbc : b.toNat < c.toNat
            · simp [show a.toNat < c.toNat by omega]
            · by_cases hcb : c.toNat < b.toNat
              · simp [hbc, hcb] at h2
              · simp [hbc, hcb] at h2
                simp [show ¬ a.toNat < c.toNat by omega, show ¬ c.toNat < a.toNat by omega]
                exact ih bs cs h1 h2

instance : IsTotal String (fun a b => strLe a b = true) :=
  ⟨fun a b => charListLe_total a.data b.data⟩

instance : IsTrans String (fun a b => strLe a b = true) :=
  ⟨fun a b c h1 h2 => charListLe_trans a.data b.data c.data h1 h2⟩

theorem audioCount_append (s t : List Seg) :
    audioCount (s ++ t) = audioCount s + audioCount t := by
  simp [audioCount, List.countP_append]

theorem silenceCount_append (s t : List Seg) :
    silenceCount (s ++ t) = silenceCount s + silenceCount t := by
  simp [silenceCount, List.countP_append]

theorem combineFrom_cons (d : String → Option Nat) (n i : Nat) (f : String)
    (rest : List String) :
    combineFrom d n i (f :: rest) =
      (match d f with
       | some v => Seg.audio f v :: (if i < n - 1 then [Seg.silence 3000] else [])
       | none => []) ++ combineFrom d n (i + 1) rest := rfl

theorem combineFrom_append (d : String → Option Nat) (n : Nat) (xs ys : List String) :
    ∀ i, combineFrom d n i (xs ++ ys) =
      combineFrom d n i xs ++ combineFrom d n (i + xs.length) ys := by
  induction xs with
  | nil => intro i; simp [combineFrom]
  | cons f rest ih =>
    intro i
    have harith : i + (f :: rest).length = i + 1 + rest.length := by
      simp [List.length_cons]; omega
    rw [List.cons_append, combineFrom_cons, combineFrom_cons, ih (i + 1), harith,
      List.append_assoc]

theorem audioCount_combineFrom (d : String → Option Nat) (n : Nat) (fs : List String) :
    ∀ i, audioCount (combineFrom d n i fs) = fs.countP (fun f => (d f).isSome) := by
  induction fs with
  | nil => intro i; simp [combineFrom, audioCount]
  | cons f rest ih =>
    intro i
    simp only [combineFrom]
    rw [audioCount_append, ih (i + 1)]
    cases hd : d f with
    | none => simp [audioCount, List.countP_cons, hd]
    | some v =>
      by_cases hi : i < n - 1 <;>
        simp [audioCount, List.countP_cons, hd, hi, Seg.isAudio] <;> omega

theorem silenceCount_combineFrom_of_isSome (d : String → Option Nat) (n : Nat)
    (fs : List String) (h : ∀ f ∈ fs, (d f).isSome = true) :
    ∀ i, silenceCount (combineFrom d n i fs) = min fs.length (n - 1 - i) := by
  induction fs with
  | nil => intro i; simp [combineFrom, silenceCount]
  | cons f rest ih =>
    intro i
    have hf : (d f).isSome = true := h f (List.mem_cons_self f rest)
    have hrest : ∀ g ∈ rest, (d g).isSome = true :=
      fun g hg => h g (List.mem_cons_of_mem f hg)
    obtain ⟨v, hv⟩ := Option.isSome_iff_exists.mp hf
    simp only [combineFrom, hv]
    rw [silenceCount_append, ih hrest (i + 1)]
    by_cases hi : i < n - 1
    · simp only [hi, if_pos]
      simp [silenceCount, Seg.isAudio, List.length_cons]
      omega
    · simp only [hi, if_neg, not_false_iff]
      simp [silenceCount, Seg.isAudio, List.length_cons]
      omega

theorem combineFrom_of_none (d : String → Option Nat) (n : Nat) (fs : List String)
    (h : ∀ f ∈ fs, d f = none) :
    ∀ i, combineFrom d n i fs = [] := by
  induction fs with
  | nil => intro i; rfl
  | cons f rest ih =>
    intro i
    have hf : d f = none := h f (List.mem_cons_self f rest)
    have hrest : ∀ g ∈ rest, d g = none := fun g hg => h g (List.mem_cons_of_mem f hg)
    simp [combineFrom, hf, ih hrest (i + 1)]

theorem readKey_plain (c : Char) (s : List Char) (h : ¬ c = '\x1b') :
    (readKey (c :: s)).2 = s := by
  simp only [readKey]
  rw [if_neg h]
  split_ifs <;> rfl

theorem readKey_esc_other (x : Char) (s : List Char) (h : ¬ x = '[') :
    readKey ('\x1b' :: x :: s) = (Command.ignore, s) := by
  simp [readKey, h]

theorem readKey_esc_bracket (x : Char) (s : List Char) :
    (readKey ('\x1b' :: '[' :: x :: s)).2 = s := by
  simp only [readKey]
  split_ifs <;> rfl

theorem bytesConsumed_le_three (s : List Char) : bytesConsumed s ≤ 3 := by
  rcases s with _ | ⟨c, s⟩
  · decide
  · by_cases hc : c = '\x1b'
    · subst hc
      rcases s with _ | ⟨x, s⟩
      · decide
      · by_cases hx : x = '['
        · subst hx
          rcases s with _ | ⟨a, s⟩
          · decide
          · have h2 := readKey_esc_bracket a s
            simp only [bytesConsumed, h2, List.length_cons]
            omega
        · have h2 := readKey_esc_other x s hx
          simp only [bytesConsumed, h2, List.length_cons]
          omega
    · have h2 := readKey_plain c s hc
      simp only [bytesConsumed, h2, List.length_cons]
      omega

/-! Claim theorems. -/

/-- C1 (counterexample): with two files where the second (last) one fails to
decode, the combined output holds N-1 = 1 audio segment but 1 silence gap,
not the claimed N-2 = 0 — the success at original index 0 appends a gap
because gap insertion tests the original-list index, so the skipped last
file leaves an orphan trailing gap. -/
theorem combine_trailing_gap_counterexample :
    decodeSample "a.mp3" = some 1000 ∧
    decodeSample "b.mp3" = none ∧
    audioCount (combineAll decodeSample ["a.mp3", "b.mp3"]) = 1 ∧
    silenceCount (combineAll decodeSample ["a.mp3", "b.mp3"]) = 1 ∧
    ¬ silenceCount (combineAll decodeSample ["a.mp3", "b.mp3"]) = 2 - 2 := by
  decide

/-- C1 (amended): for N files of which exactly the one at position
k = pre.length fails to decode, the output holds N-1 audio segments, and the
silence-gap count is determined by original-list position: N-2 gaps when the
failing file is not last (post nonempty), but N-1 gaps — including an orphan
trailing gap — when the failing file is last (post empty). -/
theorem combine_gap_counts (d : String → Option Nat) (pre post : List String)
    (g : String)
    (hpre : ∀ f ∈ pre, (d f).isSome = true)
    (hg : d g = none)
    (hpost : ∀ f ∈ post, (d f).isSome = true) :
    audioCount (combineAll d (pre ++ g :: post)) = (pre ++ g :: post).length - 1 ∧
    silenceCount (combineAll d (pre ++ g :: post)) =
      (if post = [] then (pre ++ g :: post).length - 1
       else (pre ++ g :: post).length - 2) := by
  have hlen : (pre ++ g :: post).length = pre.length + post.length + 1 := by
    simp only [List.length_append, List.length_cons]
    omega
  constructor
  · simp only [combineAll]
    rw [audioCount_combineFrom]
    have h1 : pre.countP (fun f => (d f).isSome) = pre.length :=
      List.countP_eq_length.mpr (fun f hf => hpre f hf)
    have h2 : post.countP (fun f => (d f).isSome) = post.length :=
      List.countP_eq_length.mpr (fun f hf => hpost f hf)
    rw [List.countP_append, List.countP_cons, h1, h2]
    simp [hg]
  · simp only [combineAll]
    rw [combineFrom_append, silenceCount_append, combineFrom_cons]
    simp only [hg, List.nil_append]
    rw [silenceCount_combineFrom_of_isSome d (pre ++ g :: post).length pre hpre 0,
      silenceCount_combineFrom_of_isSome d (pre ++ g :: post).length post hpost
        (0 + pre.length + 1)]
    by_cases hp : post = []
    · rw [if_pos hp]
      have h0 : post.length = 0 := by rw [hp]; rfl
      omega
    · rw [if_neg hp]
      have hp2 : 0 < post.length := List.length_pos.mpr hp
      omega

/-- C1 (witness): instantiating the amended count theorem with a middle file
failing among three: 2 audio segments and 1 silence gap. -/
theorem combine_gap_counts_witness :
    (∀ f ∈ ["a.mp3"], (decodeSample f).isSome = true) ∧
    decodeSample "b.mp3" = none ∧
    (∀ f ∈ ["c.mp3"], (decodeSample f).isSome = true) ∧
    audioCount (combineAll decodeSample (["a.mp3"] ++ "b.mp3" :: ["c.mp3"])) =
      (["a.mp3"] ++ "b.mp3" :: ["c.mp3"]).length - 1 ∧
    silenceCount (combineAll decodeSample (["a.mp3"] ++ "b.mp3" :: ["c.mp3"])) =
      (if (["c.mp3"] : List String) = []
       then (["a.mp3"] ++ "b.mp3" :: ["c.mp3"]).length - 1
       else (["a.mp3"] ++ "b.mp3" :: ["c.mp3"]).length - 2) := by
  refine ⟨by decide, by decide, by decide, ?_, ?_⟩
  · exact (combine_gap_counts decodeSample ["a.mp3"] ["c.mp3"] "b.mp3"
      (by decide) (by decide) (by decide)).1
  · exact (combine_gap_counts decodeSample ["a.mp3"] ["c.mp3"] "b.mp3"
      (by decide) (by decide) (by decide)).2

/-- C2 (counterexample): on the combine-success exit path the saved terminal
settings are restored twice — once in the 'c' branch before the break (line
206) and once more in the finally block (line 268) — not exactly once. -/
theorem restore_twice_on_combine_counterexample :
    restoreCount ExitPath.combineKey = 2 ∧
    ¬ restoreCount ExitPath.combineKey = 1 := by
  decide

/-- C2 (amended): the restore of the saved terminal settings runs at least
once on every exit path from the interactive loop — the finally block fires
on normal quit, combine-success, and uncaught failure or interrupt — and it
runs exactly once on the quit and failure paths but exactly twice on the
combine-success path (the 'c' branch restores early to print, and the
finally block restores again). -/
theorem restore_invoked_on_every_path (p : ExitPath) :
    1 ≤ restoreCount p ∧
    restoreCount p = (if p = ExitPath.combineKey then 2 else 1) := by
  cases p <;> exact ⟨by decide, by decide⟩

/-- C3: for every initial editor state and every finite command sequence,
the multiset of filenames in the sequence is unchanged — every transition is
a swap or a pure reindex, never an insertion, deletion, or duplication. -/
theorem editor_sequence_multiset_invariant (st : EditorState) (cmds : List Command) :
    ((applyCommands st cmds).sequence : Multiset String) =
      (st.sequence : Multiset String) :=
  Multiset.coe_eq_coe.mpr (applyCommands_sequence_perm st cmds)

/-- C4: when every file in the list fails to decode, the run takes the fatal
no-valid-input branch (stderr report and exit code 1) and performs no
export of the output file. -/
theorem all_decode_fail_no_export (d : String → Option Nat) (files : List String)
    (h : ∀ f ∈ files, d f = none) :
    runCombine d files = ExportResult.noValidInput := by
  have hnil : combineAll d files = [] := combineFrom_of_none d files.length files h 0
  simp [runCombine, hnil, totalLength]

/-- C4 (witness): two files, both failing to decode, yield the
no-valid-input outcome. -/
theorem all_decode_fail_no_export_witness :
    (∀ f ∈ ["x.mp3", "y.mp3"], (fun _ : String => (none : Option Nat)) f = none) ∧
    runCombine (fun _ : String => (none : Option Nat)) ["x.mp3", "y.mp3"] =
      ExportResult.noValidInput :=
  ⟨fun _ _ => rfl,
   all_decode_fail_no_export (fun _ => none) ["x.mp3", "y.mp3"] (fun _ _ => rfl)⟩

/-- C5: from the 3-item sequence [A,B,C] with focus 0 and nothing picked,
the commands [TogglePick, MoveDown, MoveDown, TogglePick, Combine] end the
loop via combine with final order [B,C,A], which is exactly the order handed
to the Combiner. -/
theorem scenario_reorder_combine_order :
    runLoop ⟨["A", "B", "C"], 0, none⟩
      [Command.togglePick, Command.moveDown, Command.moveDown,
       Command.togglePick, Command.combine] = some ["B", "C", "A"] := by
  decide

/-- C6 (counterexample): ESC followed by a byte other than '[' consumes
exactly 2 raw bytes, so a key-decoder call does not always consume exactly
1 or exactly 3 bytes. -/
theorem readKey_two_byte_counterexample :
    bytesConsumed ['\x1b', 'x'] = 2 ∧
    ¬ (bytesConsumed ['\x1b', 'x'] = 1 ∨ bytesConsumed ['\x1b', 'x'] = 3) := by
  decide

/-- C6 (amended): a key-decoder call consumes at most 3 raw bytes and never
more than are available: exactly 1 for a plain character, exactly 2 for ESC
followed by a byte other than '[' (decoded as Ignore), exactly 3 for a full
ESC '[' X sequence (Ignore when X is unrecognized); a stream truncated after
ESC or after ESC '[' consumes what remains and decodes to Ignore, and the
decoder is a total function — it never fails. -/
theorem readKey_consumption (c x : Char) (s : List Char) :
    bytesConsumed s ≤ 3 ∧
    bytesConsumed s ≤ s.length ∧
    (c ≠ '\x1b' → bytesConsumed (c :: s) = 1) ∧
    (x ≠ '[' → bytesConsumed ('\x1b' :: x :: s) = 2 ∧
      (readKey ('\x1b' :: x :: s)).1 = Command.ignore) ∧
    bytesConsumed ('\x1b' :: '[' :: x :: s) = 3 ∧
    (x ≠ 'A' → x ≠ 'B' → (readKey ('\x1b' :: '[' :: x :: s)).1 = Command.ignore) ∧
    (bytesConsumed ['\x1b'] = 1 ∧ (readKey ['\x1b']).1 = Command.ignore) ∧
    (bytesConsumed ['\x1b', '['] = 2 ∧ (readKey ['\x1b', '[']).1 = Command.ignore) := by
  refine ⟨bytesConsumed_le_three s, Nat.sub_le _ _, ?_, ?_, ?_, ?_, by decide, by decide⟩
  · intro h
    have h2 := readKey_plain c s h
    simp only [bytesConsumed, h2, List.length_cons]
    omega
  · intro h
    have h2 := readKey_esc_other x s h
    constructor
    · simp only [bytesConsumed, h2, List.length_cons]
      omega
    · simp [h2]
  · have h2 := readKey_esc_bracket x s
    simp only [bytesConsumed, h2, List.length_cons]
    omega
  · intro hA hB
    simp [readKey, hA, hB]

/-- C6 (witness): the consumption rules at concrete inputs — a plain byte
consumes 1, and ESC followed by 'x' consumes 2 and decodes to Ignore. -/
theorem readKey_consumption_witness :
    ('z' : Char) ≠ '\x1b' ∧ bytesConsumed ['z'] = 1 ∧
    ('x' : Char) ≠ '[' ∧ bytesConsumed ['\x1b', 'x'] = 2 ∧
    (readKey ['\x1b', 'x']).1 = Command.ignore := by
  refine ⟨by decide, (readKey_consumption 'z' 'x' []).2.2.1 (by decide), by decide, ?_, ?_⟩
  · exact ((readKey_consumption 'z' 'x' []).2.2.2.1 (by decide)).1
  · exact ((readKey_consumption 'z' 'x' []).2.2.2.1 (by decide)).2

/-- C7: on a nonempty sequence, MoveUp at focus 0 in browse mode, MoveDown
at focus length-1 in browse mode, MoveUp with picked index 0 in drag mode,
and MoveDown with picked index length-1 in drag mode are all no-ops: the
state is unchanged, with no error and no wraparound. -/
theorem boundary_moves_are_noops (st : EditorState) (hne : st.sequence ≠ []) :
    (st.selected_index = none → st.focused_index = 0 →
      applyCommand st Command.moveUp = st) ∧
    (st.selected_index = none → st.focused_index = st.sequence.length - 1 →
      applyCommand st Command.moveDown = st) ∧
    (st.selected_index = some 0 → applyCommand st Command.moveUp = st) ∧
    (st.selected_index = some (st.sequence.length - 1) →
      applyCommand st Command.moveDown = st) := by
  obtain ⟨seq, f, sel⟩ := st
  refine ⟨?_, ?_, ?_, ?_⟩
  · intro h1 h2
    subst h1
    subst h2
    rfl
  · intro h1 h2
    subst h1
    simp only [applyCommand]
    simp at h2 ⊢
    omega
  · intro h1
    subst h1
    rfl
  · intro h1
    simp at h1
    subst h1
    simp [applyCommand, Nat.lt_irrefl]

/-- C7 (witness): the four boundary no-ops on the concrete 2-item state. -/
theorem boundary_moves_are_noops_witness :
    applyCommand ⟨["A", "B"], 0, none⟩ Command.moveUp = ⟨["A", "B"], 0, none⟩ ∧
    applyCommand ⟨["A", "B"], 1, none⟩ Command.moveDown = ⟨["A", "B"], 1, none⟩ ∧
    applyCommand ⟨["A", "B"], 0, some 0⟩ Command.moveUp = ⟨["A", "B"], 0, some 0⟩ ∧
    applyCommand ⟨["A", "B"], 1, some 1⟩ Command.moveDown = ⟨["A", "B"], 1, some 1⟩ :=
  ⟨(boundary_moves_are_noops ⟨["A", "B"], 0, none⟩ (by decide)).1 rfl rfl,
   (boundary_moves_are_noops ⟨["A", "B"], 1, none⟩ (by decide)).2.1 rfl rfl,
   (boundary_moves_are_noops ⟨["A", "B"], 0, some 0⟩ (by decide)).2.2.1 rfl,
   (boundary_moves_are_noops ⟨["A", "B"], 1, some 1⟩ (by decide)).2.2.2 rfl⟩

/-- C8: in browse mode (nothing picked), TogglePick followed immediately by
TogglePick is the identity: same sequence, same focus, picked unset. -/
theorem togglePick_pair_identity (st : EditorState) (h : st.selected_index = none) :
    applyCommand (applyCommand st Command.togglePick) Command.togglePick = st := by
  obtain ⟨seq, f, sel⟩ := st
  cases sel with
  | none => rfl
  | some s => exact Option.noConfusion h

/-- C8 (witness): the pick/unpick identity on a concrete browse-mode state. -/
theorem togglePick_pair_identity_witness :
    applyCommand (applyCommand ⟨["A", "B"], 1, none⟩ Command.togglePick)
      Command.togglePick = ⟨["A", "B"], 1, none⟩ :=
  togglePick_pair_identity ⟨["A", "B"], 1, none⟩ rfl

/-- C9: for every directory listing, the file lister returns a list that is
sorted ascending in the code-point lexicographic order, is a permutation of
exactly the entries whose lowercased name ends with ".mp3" (no omissions,
and no duplicates when the listing has none), and on the scenario listing
["b.mp3","a.MP3","c.txt"] returns ["a.MP3","b.mp3"]. -/
theorem list_mp3_files_sorted_filter (l : List String) :
    (list_mp3_files l).Sorted (fun a b => strLe a b = true) ∧
    (list_mp3_files l).Perm (l.filter (fun f => endsWithLower f ".mp3")) ∧
    (l.Nodup → (list_mp3_files l).Nodup) ∧
    list_mp3_files ["b.mp3", "a.MP3", "c.txt"] = ["a.MP3", "b.mp3"] := by
  refine ⟨List.sorted_insertionSort _ _, List.perm_insertionSort _ _, ?_, by decide⟩
  intro h
  exact ((List.perm_insertionSort _ _).nodup_iff).mpr (h.filter _)

/-- C9 (witness): the scenario listing has no duplicates and neither does
the lister's output on it. -/
theorem list_mp3_files_sorted_filter_witness :
    (["b.mp3", "a.MP3", "c.txt"] : List String).Nodup ∧
    (list_mp3_files ["b.mp3", "a.MP3", "c.txt"]).Nodup :=
  ⟨by decide,
   (list_mp3_files_sorted_filter ["b.mp3", "a.MP3", "c.txt"]).2.2.1 (by decide)⟩

/-- C10: the no-valid-input branch is taken exactly when the combined audio
has zero total length, not exactly when zero files decoded: a single file
that decodes successfully to zero-duration audio still takes the error
branch and exits non-zero with no export. -/
theorem export_guard_zero_length :
    ((fun _ : String => (some 0 : Option Nat)) "a.mp3").isSome = true ∧
    runCombine (fun _ : String => (some 0 : Option Nat)) ["a.mp3"] =
      ExportResult.noValidInput ∧
    ∀ (d : String → Option Nat) (files : List String),
      (runCombine d files = ExportResult.noValidInput ↔
        totalLength (combineAll d files) = 0) := by
  refine ⟨rfl, by decide, ?_⟩
  intro d files
  by_cases h : totalLength (combineAll d files) > 0
  · simp [runCombine, h]
    omega
  · simp [runCombine, h]
    omega
